import Mathlib

/-!
Shallow embedding of the BVH / ray-intersection core of the RustRenderGL
renderer (src/aabb.rs, src/bvh.rs, src/ray.rs, src/sphere.rs, src/structs.rs),
together with theorems settling the specification claims about it.

Modelling conventions:
* `f32` scalars that stay finite in the algorithms are modelled by `ℚ`
  (exact arithmetic; floating-point rounding is outside the scope of the
  claims, which all allow floating-point tolerance).
* The AABB fields can hold the IEEE infinities (the `AABB::new` sentinel is
  `min = +inf`, `max = -inf`) and the slab test can produce NaN, so AABB
  coordinates and slab-test intermediates live in an extended type `F`
  (`nan | pinf | ninf | fin q`) whose `sub`, `mul`, `min`, `max` and
  comparisons follow IEEE-754 / Rust `f32::min` / `f32::max` semantics.
* Rust `Vec<T>` becomes `List T`; bounds-checked accesses that the source
  unwraps (panicking on out-of-range, which construction never produces)
  become `getD` with a default element.
* The GPU buffer uploads at the end of `Bvh::construct` are foreign `gl::*`
  calls with no influence on the data structure; they are not modelled and
  the four GPU handle fields are omitted from the `Bvh` record.
-/

namespace RustRenderGL

/-- Two-component vector of exact scalars (glam `Vec2`). -/
structure Vec2 where
  x : ℚ
  y : ℚ
deriving DecidableEq

/-- Three-component vector of exact scalars (glam `Vec3`). -/
structure Vec3 where
  x : ℚ
  y : ℚ
  z : ℚ
deriving DecidableEq

/-- Four-component vector of exact scalars (glam `Vec4`). -/
structure Vec4 where
  x : ℚ
  y : ℚ
  z : ℚ
  w : ℚ
deriving DecidableEq

namespace Vec2

def add (a b : Vec2) : Vec2 := ⟨a.x + b.x, a.y + b.y⟩

def sub (a b : Vec2) : Vec2 := ⟨a.x - b.x, a.y - b.y⟩

def smul (a : Vec2) (s : ℚ) : Vec2 := ⟨a.x * s, a.y * s⟩

def zero : Vec2 := ⟨0, 0⟩

end Vec2

namespace Vec3

def add (a b : Vec3) : Vec3 := ⟨a.x + b.x, a.y + b.y, a.z + b.z⟩

def sub (a b : Vec3) : Vec3 := ⟨a.x - b.x, a.y - b.y, a.z - b.z⟩

def smul (a : Vec3) (s : ℚ) : Vec3 := ⟨a.x * s, a.y * s, a.z * s⟩

def divs (a : Vec3) (s : ℚ) : Vec3 := ⟨a.x / s, a.y / s, a.z / s⟩

def dot (a b : Vec3) : ℚ := a.x * b.x + a.y * b.y + a.z * b.z

/-- glam `Vec3::cross`, right-handed. -/
def cross (a b : Vec3) : Vec3 :=
  ⟨a.y * b.z - a.z * b.y, a.z * b.x - a.x * b.z, a.x * b.y - a.y * b.x⟩

def zero : Vec3 := ⟨0, 0, 0⟩

end Vec3

namespace Vec4

def add (a b : Vec4) : Vec4 := ⟨a.x + b.x, a.y + b.y, a.z + b.z, a.w + b.w⟩

def sub (a b : Vec4) : Vec4 := ⟨a.x - b.x, a.y - b.y, a.z - b.z, a.w - b.w⟩

def smul (a : Vec4) (s : ℚ) : Vec4 := ⟨a.x * s, a.y * s, a.z * s, a.w * s⟩

def zero : Vec4 := ⟨0, 0, 0, 0⟩

end Vec4

/-- Extended scalar: a finite `f32` value, one of the two IEEE infinities, or
NaN. Used for the AABB corner coordinates (whose sentinel state is infinite)
and for the slab-test arithmetic, which multiplies infinities. -/
inductive F where
  | nan : F
  | pinf : F
  | ninf : F
  | fin : ℚ → F
deriving DecidableEq

namespace F

/-- IEEE subtraction on extended values (`inf - inf = NaN`). -/
def sub : F → F → F
  | nan, _ => nan
  | _, nan => nan
  | pinf, pinf => nan
  | pinf, _ => pinf
  | ninf, ninf => nan
  | ninf, _ => ninf
  | fin _, pinf => ninf
  | fin _, ninf => pinf
  | fin a, fin b => fin (a - b)

/-- IEEE multiplication on extended values (`inf * 0 = NaN`, sign rules
otherwise). -/
def mul : F → F → F
  | nan, _ => nan
  | _, nan => nan
  | pinf, pinf => pinf
  | pinf, ninf => ninf
  | ninf, pinf => ninf
  | ninf, ninf => pinf
  | pinf, fin b => if 0 < b then pinf else if b < 0 then ninf else nan
  | ninf, fin b => if 0 < b then ninf else if b < 0 then pinf else nan
  | fin a, pinf => if 0 < a then pinf else if a < 0 then ninf else nan
  | fin a, ninf => if 0 < a then ninf else if a < 0 then pinf else nan
  | fin a, fin b => fin (a * b)

/-- IEEE `<=` comparison: every comparison against NaN is false. -/
def le : F → F → Bool
  | nan, _ => false
  | _, nan => false
  | ninf, _ => true
  | pinf, pinf => true
  | pinf, _ => false
  | fin _, pinf => true
  | fin _, ninf => false
  | fin a, fin b => decide (a ≤ b)

/-- IEEE `<` comparison: every comparison against NaN is false. -/
def lt : F → F → Bool
  | nan, _ => false
  | _, nan => false
  | ninf, ninf => false
  | ninf, _ => true
  | pinf, _ => false
  | fin _, pinf => true
  | fin _, ninf => false
  | fin a, fin b => decide (a < b)

/-- Rust `f32::min`: if one argument is NaN the other is returned. -/
def fmin : F → F → F
  | nan, b => b
  | a, nan => a
  | ninf, _ => ninf
  | _, ninf => ninf
  | pinf, b => b
  | a, pinf => a
  | fin a, fin b => fin (min a b)

/-- Rust `f32::max`: if one argument is NaN the other is returned. -/
def fmax : F → F → F
  | nan, b => b
  | a, nan => a
  | pinf, _ => pinf
  | _, pinf => pinf
  | ninf, b => b
  | a, ninf => a
  | fin a, fin b => fin (max a b)

end F

/-- Three-component vector of extended scalars, for the AABB corners. -/
structure Vec3F where
  x : F
  y : F
  z : F
deriving DecidableEq

/-- Componentwise `F.sub`, used for the box extent `max - min`. -/
def Vec3F.sub (a b : Vec3F) : Vec3F := ⟨F.sub a.x b.x, F.sub a.y b.y, F.sub a.z b.z⟩

/-- `struct Vertex` of src/structs.rs: position, normal, tangent, colour and
two UV sets. -/
structure Vertex where
  position : Vec3
  normal : Vec3
  tangent : Vec4
  colour : Vec4
  uv0 : Vec2
  uv1 : Vec2
deriving DecidableEq

namespace Vertex

/-- `impl Add<Vertex> for Vertex` (componentwise on every attribute). -/
def add (a b : Vertex) : Vertex :=
  ⟨a.position.add b.position, a.normal.add b.normal, a.tangent.add b.tangent,
   a.colour.add b.colour, a.uv0.add b.uv0, a.uv1.add b.uv1⟩

/-- `impl Sub<Vertex> for Vertex` (componentwise on every attribute). -/
def sub (a b : Vertex) : Vertex :=
  ⟨a.position.sub b.position, a.normal.sub b.normal, a.tangent.sub b.tangent,
   a.colour.sub b.colour, a.uv0.sub b.uv0, a.uv1.sub b.uv1⟩

/-- `impl Mul<f32> for Vertex` (componentwise on every attribute). -/
def smul (a : Vertex) (s : ℚ) : Vertex :=
  ⟨a.position.smul s, a.normal.smul s, a.tangent.smul s,
   a.colour.smul s, a.uv0.smul s, a.uv1.smul s⟩

/-- `Vertex::zero`: the all-zero vertex. -/
def zero : Vertex := ⟨Vec3.zero, Vec3.zero, Vec4.zero, Vec4.zero, Vec2.zero, Vec2.zero⟩

end Vertex

/-- `struct Triangle` of src/structs.rs. -/
structure Triangle where
  v0 : Vertex
  v1 : Vertex
  v2 : Vertex
deriving DecidableEq

/-- Default triangle used as the `getD` fallback for accesses the source
unwraps; construction keeps every access in bounds. -/
def dummyTriangle : Triangle := ⟨Vertex.zero, Vertex.zero, Vertex.zero⟩

/-- `struct AABB` of src/aabb.rs; the corners live in the extended type so
that the empty-box sentinel of `AABB::new` is representable. -/
structure AABB where
  min : Vec3F
  max : Vec3F
deriving DecidableEq

namespace AABB

/-- `AABB::new()`: the inverted-infinity empty-box sentinel. -/
def new : AABB :=
  ⟨⟨F.pinf, F.pinf, F.pinf⟩, ⟨F.ninf, F.ninf, F.ninf⟩⟩

/-- `AABB::grow(position)` exactly as written in src/aabb.rs lines 24-31:
each component of `min` is assigned `position.c.min(position.c)` and each
component of `max` is assigned `position.c.max(position.c)` — the current
corners of the box are never read, so the box is overwritten with the
degenerate point box at `position`. -/
def grow (_self : AABB) (position : Vec3) : AABB :=
  { min := ⟨F.fmin (F.fin position.x) (F.fin position.x),
            F.fmin (F.fin position.y) (F.fin position.y),
            F.fmin (F.fin position.z) (F.fin position.z)⟩,
    max := ⟨F.fmax (F.fin position.x) (F.fin position.x),
            F.fmax (F.fin position.y) (F.fin position.y),
            F.fmax (F.fin position.z) (F.fin position.z)⟩ }

/-- What the spec demands of `grow`: componentwise min of the current min and
the point, componentwise max of the current max and the point. Used only to
state how the source diverges from the claims. -/
def growSpec (self : AABB) (position : Vec3) : AABB :=
  { min := ⟨F.fmin self.min.x (F.fin position.x),
            F.fmin self.min.y (F.fin position.y),
            F.fmin self.min.z (F.fin position.z)⟩,
    max := ⟨F.fmax self.max.x (F.fin position.x),
            F.fmax self.max.y (F.fin position.y),
            F.fmax self.max.z (F.fin position.z)⟩ }

/-- Membership of a finite point in a box, componentwise `min ≤ p ≤ max`
with IEEE comparisons. -/
def containsPoint (self : AABB) (p : Vec3) : Bool :=
  F.le self.min.x (F.fin p.x) && F.le (F.fin p.x) self.max.x &&
  F.le self.min.y (F.fin p.y) && F.le (F.fin p.y) self.max.y &&
  F.le self.min.z (F.fin p.z) && F.le (F.fin p.z) self.max.z

end AABB

/-- `struct Ray` of src/ray.rs. The reciprocal direction is carried as data,
exactly as in the source (which precomputes it in `Ray::new`); the claims
quantify over the record, so no division is re-done here. The length can be
`+inf` (`Ray::new` with `None`). -/
structure Ray where
  position : Vec3
  direction : Vec3
  one_over_direction : Vec3
  length : F
deriving DecidableEq

/-- `struct HitInfo` of src/ray.rs. `distance` is finite whenever a hit is
reported; the `f32::INFINITY` "no hit yet" sentinel of the traversal is
modelled by `Option HitInfo` at the use sites. -/
structure HitInfo where
  distance : ℚ
  normal : Vec3
  uv : Vec2
  triangle_index : ℤ
deriving DecidableEq

/-- `struct HitInfoExt` of src/ray.rs. -/
structure HitInfoExt where
  distance : ℚ
  vertex_interpolated : Vertex
deriving DecidableEq

/-- `Vertex::from_triangle_with_uv` of src/ray.rs lines 30-32. -/
def Vertex.from_triangle_with_uv (triangle : Triangle) (u v : ℚ) : Vertex :=
  (triangle.v0.add ((triangle.v1.sub triangle.v0).smul u)).add
    ((triangle.v2.sub triangle.v0).smul v)

/-- Per-axis slab entry/exit bounds of `AABB::intersects` (src/ray.rs lines
36-56), folded in the exact order of the source: x initialises, then y, then
z, with Rust `f32::min` / `f32::max`. Returns the pair `(tmin, tmax)`. -/
def AABB.slab (self : AABB) (ray : Ray) : F × F :=
  let tx1 := F.mul (F.sub self.min.x (F.fin ray.position.x)) (F.fin ray.one_over_direction.x)
  let tx2 := F.mul (F.sub self.max.x (F.fin ray.position.x)) (F.fin ray.one_over_direction.x)
  let tmin0 := F.fmin tx1 tx2
  let tmax0 := F.fmax tx1 tx2
  let ty1 := F.mul (F.sub self.min.y (F.fin ray.position.y)) (F.fin ray.one_over_direction.y)
  let ty2 := F.mul (F.sub self.max.y (F.fin ray.position.y)) (F.fin ray.one_over_direction.y)
  let tmin1 := F.fmax (F.fmin ty1 ty2) tmin0
  let tmax1 := F.fmin (F.fmax ty1 ty2) tmax0
  let tz1 := F.mul (F.sub self.min.z (F.fin ray.position.z)) (F.fin ray.one_over_direction.z)
  let tz2 := F.mul (F.sub self.max.z (F.fin ray.position.z)) (F.fin ray.one_over_direction.z)
  let tmin2 := F.fmax (F.fmin tz1 tz2) tmin1
  let tmax2 := F.fmin (F.fmax tz1 tz2) tmax1
  (tmin2, tmax2)

/-- `AABB::intersects(ray)` of src/ray.rs: `tmax >= tmin && tmax >= 0.0`. -/
def AABB.intersects (self : AABB) (ray : Ray) : Bool :=
  F.le (self.slab ray).1 (self.slab ray).2 && F.le (F.fin 0) (self.slab ray).2

/-- The determinant `e1 · (direction × e2)` of the Möller–Trumbore test. -/
def Triangle.det (self : Triangle) (ray : Ray) : ℚ :=
  Vec3.dot (self.v1.position.sub self.v0.position)
    (Vec3.cross ray.direction (self.v2.position.sub self.v0.position))

/-- `Triangle::intersects(ray)` of src/ray.rs lines 60-95 (Möller–Trumbore,
backface-culled: `det <= 0` is rejected). The source stores
`edge1.cross(edge2).normalize()` in the `normal` field; normalisation scales
by the positive factor `1 / |edge1 × edge2|`, which is irrational in general
and hence not representable in exact arithmetic, so the embedding stores the
unnormalised direction `edge1 × edge2` and statements about the normal are up
to that positive scaling. -/
def Triangle.intersects (self : Triangle) (ray : Ray) : Option HitInfo :=
  let edge1 := self.v1.position.sub self.v0.position
  let edge2 := self.v2.position.sub self.v0.position
  let h := Vec3.cross ray.direction edge2
  let det := Vec3.dot edge1 h
  if det ≤ 0 then none
  else
    let inv_det := 1 / det
    let v0_ray := ray.position.sub self.v0.position
    let u := inv_det * Vec3.dot v0_ray h
    if ¬(0 ≤ u ∧ u ≤ 1) then none
    else
      let q := Vec3.cross v0_ray edge1
      let v := inv_det * Vec3.dot ray.direction q
      if v < 0 ∨ u + v > 1 then none
      else
        let t := inv_det * Vec3.dot edge2 q
        if t > 0 then
          some { distance := t,
                 normal := Vec3.cross edge1 edge2,
                 uv := ⟨u, v⟩,
                 triangle_index := -1 }
        else none

/-- `struct Sphere` of src/sphere.rs. -/
structure Sphere where
  position : Vec3
  radius_squared : ℚ
deriving DecidableEq

/-- `Sphere::intersects(ray)` of src/ray.rs lines 155-183. The source takes
`d.sqrt()`, which is irrational in general; the embedding therefore receives
the square root as the extra argument `sqrt_d`, constrained at the use sites
by the hypotheses `0 ≤ sqrt_d` and `sqrt_d * sqrt_d = d`. -/
def Sphere.intersects (self : Sphere) (ray : Ray) (sqrt_d : ℚ) : Option HitInfoExt :=
  let o2c := ray.position.sub self.position
  let b := Vec3.dot o2c ray.direction
  let c := Vec3.dot o2c o2c - self.radius_squared
  let d := b * b - c
  if d ≥ 0 then
    let distance1 := -b - sqrt_d
    let distance2 := -b + sqrt_d
    if distance1 ≥ 0 then
      let pos := ray.position.add (ray.direction.smul distance1)
      some { distance := distance1,
             vertex_interpolated :=
               { Vertex.zero with position := pos, normal := pos.sub self.position } }
    else
      let pos := ray.position.add (ray.direction.smul distance2)
      some { distance := distance2,
             vertex_interpolated :=
               { Vertex.zero with position := pos, normal := pos.sub self.position } }
  else none

/-- Discriminant data of the sphere test, for stating the sphere claim:
`b = (origin - center) · direction`, `c = |origin - center|² - r²`. -/
def Sphere.bval (self : Sphere) (ray : Ray) : ℚ :=
  Vec3.dot (ray.position.sub self.position) ray.direction

/-- The `c` coefficient of the sphere quadratic; negative exactly when the
ray origin is strictly inside the sphere. -/
def Sphere.cval (self : Sphere) (ray : Ray) : ℚ :=
  Vec3.dot (ray.position.sub self.position) (ray.position.sub self.position) -
    self.radius_squared

/-- `struct BvhNode` of src/bvh.rs: bounds, plus the dual-purpose
`left_first`/`count` pair (`count = -1` marks an internal node). -/
structure BvhNode where
  bounds : AABB
  left_first : ℤ
  count : ℤ
deriving DecidableEq

/-- Default node used as the `getD` fallback for accesses the source indexes
directly; construction keeps every access in bounds. -/
def dummyNode : BvhNode := ⟨AABB.new, 0, 0⟩

/-- `struct Bvh` of src/bvh.rs, without the four GPU buffer handles (foreign
`gl::*` state with no influence on construction or traversal). -/
structure Bvh where
  nodes : List BvhNode
  indices : List ℕ
  triangles : List Triangle
deriving DecidableEq

/-- `enum Axis` of src/bvh.rs. -/
inductive Axis where
  | X : Axis
  | Y : Axis
  | Z : Axis
deriving DecidableEq

/-- The triangle centroid coordinate `(v0.c + v1.c + v2.c) / 3` on the given
axis, as computed inside `Bvh::partition`. -/
def Triangle.center (self : Triangle) (axis : Axis) : ℚ :=
  match axis with
  | Axis.X => (self.v0.position.x + self.v1.position.x + self.v2.position.x) / 3
  | Axis.Y => (self.v0.position.y + self.v1.position.y + self.v2.position.y) / 3
  | Axis.Z => (self.v0.position.z + self.v1.position.z + self.v2.position.z) / 3

/-- Read of the index array at a (signed, in the source `i32`) position. -/
def geti (idx : List ℕ) (i : ℤ) : ℕ := idx.getD i.toNat 0

/-- The parallel-assignment swap of `indices[i]` and `indices[j]` performed
by `Bvh::partition`. -/
def idxSwap (idx : List ℕ) (i j : ℤ) : List ℕ :=
  (idx.set i.toNat (geti idx j)).set j.toNat (geti idx i)

/-- The `while i <= j` two-pointer loop of `Bvh::partition` (src/bvh.rs lines
183-204), abstracted over the per-index centroid score `C` (instantiated with
the centroid coordinate of the indexed triangle on the split axis), with a
structural fuel so the kernel can evaluate it. Each iteration shrinks
`j + 1 - i` by exactly one, so `partLoop` below supplies the fuel
`(j + 1 - i).toNat`, which is exhausted exactly when the loop guard `i <= j`
fails; the fuel-out result `(idx, i)` then coincides with the loop exit. -/
def partLoopF (C : ℕ → ℚ) (pivot : ℚ) : ℕ → List ℕ → ℤ → ℤ → List ℕ × ℤ
  | 0, idx, i, _ => (idx, i)
  | fuel + 1, idx, i, j =>
    if i ≤ j then
      if pivot < C (geti idx i) then
        partLoopF C pivot fuel (idxSwap idx i j) i (j - 1)
      else
        partLoopF C pivot fuel idx (i + 1) j
    else (idx, i)

/-- The two-pointer loop with its canonical fuel. -/
def partLoop (C : ℕ → ℚ) (pivot : ℚ) (idx : List ℕ) (i j : ℤ) : List ℕ × ℤ :=
  partLoopF C pivot (j + 1 - i).toNat idx i j

/-- `Bvh::partition(axis, pivot, start, count)` of src/bvh.rs: runs the
two-pointer loop over `self.indices` with `i = start`, `j = start+count-1`,
returning the updated state and the split position. Only `indices` is
mutated. -/
def Bvh.partition (self : Bvh) (axis : Axis) (pivot : ℚ) (start count : ℤ) : Bvh × ℤ :=
  let r := partLoop (fun n => (self.triangles.getD n dummyTriangle).center axis) pivot
             self.indices start (start + count - 1)
  ({ self with indices := r.1 }, r.2)

/-- The list of loop counter values of a Rust `for i in b..e` loop over `i32`
bounds. -/
def idxRange (b e : ℤ) : List ℤ := (List.range (e - b).toNat).map (fun k => b + k)

/-- The bound-computation loop at the top of `Bvh::subdivide` (src/bvh.rs
lines 105-116): for every position in the node's index range, grow the
accumulated box over the three vertex positions of the referenced
triangle. -/
def Bvh.growNodeBounds (self : Bvh) (b e : ℤ) (init : AABB) : AABB :=
  (idxRange b e).foldl
    (fun acc i =>
      let tri := self.triangles.getD (geti self.indices i) dummyTriangle
      ((acc.grow tri.v0.position).grow tri.v1.position).grow tri.v2.position)
    init

/-- The centroid-averaging loop of `Bvh::subdivide` (src/bvh.rs lines
123-135): accumulates `v0/3 + v1/3 + v2/3` per referenced triangle and counts
the triangles (`divide`). -/
def Bvh.avgLoop (self : Bvh) (b e : ℤ) : Vec3 × ℕ :=
  (idxRange b e).foldl
    (fun (acc : Vec3 × ℕ) i =>
      let tri := self.triangles.getD (geti self.indices i) dummyTriangle
      (((acc.1.add (tri.v0.position.divs 3)).add (tri.v1.position.divs 3)).add
         (tri.v2.position.divs 3),
       acc.2 + 1))
    (Vec3.zero, 0)

/-- `Bvh::subdivide(node_index, rec_depth)` of src/bvh.rs lines 100-180,
transcribed step by step: recompute the node bounds, stop at `count <= 2` or
`rec_depth > 30`, pick the widest axis and the centroid average as the pivot,
re-tag the node as internal, partition, abort on a one-sided split (the
source restores `count` but not `left_first`), otherwise push the two child
nodes and recurse at depth `rec_depth + 1`. This definition is the body of
one call, up to (not including) the two recursive calls: `Sum.inl` carries
the final state when the node stays a leaf, `Sum.inr` the state after
pushing the two children together with the index `left` of the first child.
`Bvh.subdivideO` below ties the recursion, made structural through a fuel
counting the allowed nested call frames (`none` on exhaustion); recursive
calls happen only under the guard `rec_depth ≤ 30`, and the termination
claim is that fuel `32 - rec_depth` (depths `rec_depth .. 31`) always
suffices. -/
def Bvh.subdivideBody (self : Bvh) (node_index : ℕ) (rec_depth : ℕ) : Bvh ⊕ (Bvh × ℕ) :=
  let left := self.nodes.length
  let node := self.nodes.getD node_index dummyNode
  let beginI := node.left_first
  let endI := beginI + node.count
  let bounds := self.growNodeBounds beginI endI node.bounds
  let node1 : BvhNode := { node with bounds := bounds }
  let self1 : Bvh := { self with nodes := self.nodes.set node_index node1 }
  if node1.count ≤ 2 ∨ 30 < rec_depth then Sum.inl self1
  else
    let sumCnt := self1.avgLoop beginI endI
    let avg := sumCnt.1.divs (sumCnt.2 : ℚ)
    let size := Vec3F.sub bounds.max bounds.min
    let ap : Axis × ℚ :=
      if F.lt size.y size.x && F.lt size.z size.x then (Axis.X, avg.x)
      else if F.lt size.x size.y && F.lt size.z size.y then (Axis.Y, avg.y)
      else (Axis.Z, avg.z)
    let start_index := node1.left_first
    let node_count := node1.count
    let node2 : BvhNode := { node1 with count := -1, left_first := (left : ℤ) }
    let self2 : Bvh := { self1 with nodes := self1.nodes.set node_index node2 }
    let pr := self2.partition ap.1 ap.2 start_index node_count
    let self3 := pr.1
    let split_index := pr.2
    if split_index - start_index = 0 ∨ split_index - start_index = node_count then
      let node3 := self3.nodes.getD node_index dummyNode
      Sum.inl { self3 with
                nodes := self3.nodes.set node_index { node3 with count := node_count } }
    else
      Sum.inr
        ({ self3 with
           nodes := self3.nodes ++
             [{ bounds := AABB.new, left_first := start_index,
                count := split_index - start_index },
              { bounds := AABB.new, left_first := split_index,
                count := start_index + node_count - split_index }] },
         left)

/-- The recursion of `Bvh::subdivide` over the single-call body: on
`Sum.inl` the node stayed a leaf (guard or degenerate-split abort) and the
call returns; on `Sum.inr` the children at node indices `left` and
`left + 1` are subdivided in order at depth `rec_depth + 1`. -/
def Bvh.subdivideO (self : Bvh) (fuel : ℕ) (node_index : ℕ) (rec_depth : ℕ) : Option Bvh :=
  match fuel with
  | 0 => none
  | fuel + 1 =>
    match self.subdivideBody node_index rec_depth with
    | Sum.inl s => some s
    | Sum.inr s4l =>
      match s4l.1.subdivideO fuel s4l.2 (rec_depth + 1) with
      | none => none
      | some self5 => self5.subdivideO fuel (s4l.2 + 1) (rec_depth + 1)

/-- The state a guarded (`count <= 2` or `rec_depth > 30`) call of
`Bvh::subdivide` leaves behind: only the bounds of the visited node are
recomputed; its `count` and `left_first` and every other node are
untouched. -/
def Bvh.updateBounds (self : Bvh) (node_index : ℕ) : Bvh :=
  let node := self.nodes.getD node_index dummyNode
  { self with
    nodes := self.nodes.set node_index
      { node with
        bounds := self.growNodeBounds node.left_first
          (node.left_first + node.count) node.bounds } }

/-- `Bvh::construct(triangles)` of src/bvh.rs lines 30-51: identity index
permutation, a single root node spanning all triangles, then recursive
subdivision from the root at depth 0, run with 32 call frames of fuel
(depths 0 through 31, which the depth guard makes sufficient for every
input; the `getD` fallback to the pre-subdivision state is unreachable).
The subsequent GPU buffer creation is foreign state and not modelled. -/
def Bvh.construct (triangles : List Triangle) : Bvh :=
  let new_bvh : Bvh :=
    { nodes := [{ bounds := AABB.new, left_first := 0,
                  count := (triangles.length : ℤ) }],
      indices := List.range triangles.length,
      triangles := triangles }
  (new_bvh.subdivideO 32 0 0).getD new_bvh

/-- The closest-hit update test of `Bvh::intersects_sub`:
`new.distance < hit_info.distance && new.distance >= 0.0`, with the
`f32::INFINITY` "no hit yet" sentinel modelled as `none` (every finite
distance compares below it). -/
def betterHit (best : Option HitInfo) (nh : HitInfo) : Bool :=
  match best with
  | none => decide (0 ≤ nh.distance)
  | some b => decide (nh.distance < b.distance) && decide (0 ≤ nh.distance)

/-- The leaf loop of `Bvh::intersects_sub` (src/ray.rs lines 130-145): test
every triangle of the leaf range, keeping the closest non-negative hit and
recording the originating triangle index. -/
def Bvh.leafLoop (self : Bvh) (ray : Ray) (b e : ℤ) (best : Option HitInfo) :
    Option HitInfo :=
  (idxRange b e).foldl
    (fun acc i =>
      let tri := self.triangles.getD (geti self.indices i) dummyTriangle
      match Triangle.intersects tri ray with
      | some nh =>
        if betterHit acc nh then
          some { nh with triangle_index := (geti self.indices i : ℤ) }
        else acc
      | none => acc)
    best

/-- `Bvh::intersects_sub(ray, node_index, hit_info)` of src/ray.rs lines
123-151. The source recurses on child node indices; in every tree produced
by `construct` the children's indices strictly exceed the parent's, so a
fuel of `nodes.length` call frames is never exhausted; on exhaustion the
accumulator is returned unchanged. -/
def Bvh.intersectsSub (self : Bvh) (fuel : ℕ) (ray : Ray) (node_index : ℤ)
    (best : Option HitInfo) : Option HitInfo :=
  match fuel with
  | 0 => best
  | fuel + 1 =>
    let node := self.nodes.getD node_index.toNat dummyNode
    if node.bounds.intersects ray then
      if node.count ≠ -1 then
        self.leafLoop ray node.left_first (node.left_first + node.count) best
      else
        self.intersectsSub fuel ray (node.left_first + 1)
          (self.intersectsSub fuel ray (node.left_first + 0) best)
    else best

/-- `Bvh::intersects(ray)` of src/ray.rs lines 99-121: run the recursive
traversal from node 0 with the "no hit yet" accumulator; on a hit, resolve
the stored triangle index and interpolate the vertex at the hit's
barycentric coordinates. -/
def Bvh.intersects (self : Bvh) (ray : Ray) : Option HitInfoExt :=
  match self.intersectsSub self.nodes.length ray 0 none with
  | none => none
  | some h =>
    some { distance := h.distance,
           vertex_interpolated :=
             Vertex.from_triangle_with_uv
               (self.triangles.getD h.triangle_index.toNat dummyTriangle)
               h.uv.x h.uv.y }

/-- The brute-force reference of the closest-hit claim: apply
`Triangle::intersects` to every triangle of the list directly and take the
minimum hit distance. -/
def bruteForceHit (triangles : List Triangle) (ray : Ray) : Option ℚ :=
  triangles.foldl
    (fun acc tri =>
      match Triangle.intersects tri ray with
      | some nh =>
        match acc with
        | none => some nh.distance
        | some d => some (min d nh.distance)
      | none => acc)
    none

/-! Concrete inputs used by the witnesses and counter-evaluations. -/

/-- A vertex with the given position and all other attributes zero. -/
def mkVert (p : Vec3) : Vertex := { Vertex.zero with position := p }

/-- Triangle in the plane `z = 10` with vertices `(0,0,10)`, `(0,4,10)`,
`(4,0,10)`, wound so that `det > 0` for rays of positive `z` direction. -/
def triT : Triangle := ⟨mkVert ⟨0, 0, 10⟩, mkVert ⟨0, 4, 10⟩, mkVert ⟨4, 0, 10⟩⟩

/-- Ray from the origin with direction `(1,1,10)`; hits `triT` at `t = 1`,
barycentric `(1/4, 1/4)`. All direction components are non-zero, so the
reciprocal direction is the exact componentwise inverse. -/
def rayT : Ray := ⟨⟨0, 0, 0⟩, ⟨1, 1, 10⟩, ⟨1, 1, 1/10⟩, F.pinf⟩

/-- A degenerate (collinear) triangle: its Möller–Trumbore determinant is 0
for every ray. -/
def triDeg : Triangle := ⟨mkVert ⟨0, 0, 0⟩, mkVert ⟨1, 0, 0⟩, mkVert ⟨2, 0, 0⟩⟩

/-- The Möller–Trumbore hit record of `rayT` against `triT`: distance 1,
barycentric `(1/4, 1/4)`, face normal `edge1 × edge2 = (0,0,-16)`. -/
def hitT : HitInfo := ⟨1, ⟨0, 0, -16⟩, ⟨1/4, 1/4⟩, -1⟩

/-- The unit box `[0,1]^3`. -/
def boxB : AABB := ⟨⟨F.fin 0, F.fin 0, F.fin 0⟩, ⟨F.fin 1, F.fin 1, F.fin 1⟩⟩

/-- A ray exactly tangent to `boxB` along the edge `x = 0, y = 1`: the slab
interval degenerates to `tmin = tmax = 2`. -/
def rayTan : Ray := ⟨⟨-1, 3, 0⟩, ⟨1, -1, 1/4⟩, ⟨1, -1, 4⟩, F.pinf⟩

/-- Sphere of radius 5 (stored squared) centred at the origin. -/
def sphS : Sphere := ⟨⟨0, 0, 0⟩, 25⟩

/-- Ray starting strictly inside `sphS` at `(0,0,3)`, direction `(0,0,1)`:
`b = 3`, `c = -16`, `d = 25`. -/
def rayS : Ray := ⟨⟨0, 0, 3⟩, ⟨0, 0, 1⟩, ⟨0, 0, 1⟩, F.pinf⟩

/-- Three triangles with distinct x-extents whose centroid x-coordinates are
0, 10 and 4: partitioning at pivot 5 on the x-axis must leave triangles 0
and 2 on the left and triangle 1 on the right. -/
def trisPart : List Triangle :=
  [⟨mkVert ⟨-1, 0, 0⟩, mkVert ⟨0, 1, 0⟩, mkVert ⟨1, 0, 0⟩⟩,
   ⟨mkVert ⟨9, 0, 0⟩, mkVert ⟨10, 1, 0⟩, mkVert ⟨11, 0, 0⟩⟩,
   ⟨mkVert ⟨3, 0, 0⟩, mkVert ⟨4, 1, 0⟩, mkVert ⟨5, 0, 0⟩⟩]

/-- A BVH state over `trisPart` with the identity index permutation, used to
exercise `Bvh.partition` on its own. -/
def bvhPart : Bvh := ⟨[⟨AABB.new, 0, 3⟩], [0, 1, 2], trisPart⟩

/-- A one-leaf BVH state over a single triangle, used to exercise the
`count <= 2` guard of `subdivide`. -/
def bvhLeaf : Bvh := ⟨[⟨AABB.new, 0, 1⟩], [0], [triT]⟩

/-!
Theorems settling the claims.
-/

/-- C2: the claim says that after `grow(p)` the box contains both `p` and the
previous box, the new min being the componentwise minimum of the old min and
`p` and the new max the componentwise maximum of the old max and `p`. The
source (src/aabb.rs lines 24-31) instead assigns `position.c.min(position.c)`
and `position.c.max(position.c)`, never reading the current corners: growing
the box `[0,1]^3` by the point `(5,5,5)` yields the degenerate point box at
`(5,5,5)` instead of `[0,5]^3`, and the old corner `(0,0,0)` — inside the box
before the call — is no longer contained. -/
theorem claim_C2_grow_discards_current_box :
    AABB.grow boxB ⟨5, 5, 5⟩ =
      ⟨⟨F.fin 5, F.fin 5, F.fin 5⟩, ⟨F.fin 5, F.fin 5, F.fin 5⟩⟩ ∧
    AABB.growSpec boxB ⟨5, 5, 5⟩ =
      ⟨⟨F.fin 0, F.fin 0, F.fin 0⟩, ⟨F.fin 5, F.fin 5, F.fin 5⟩⟩ ∧
    boxB.containsPoint ⟨0, 0, 0⟩ = true ∧
    (AABB.grow boxB ⟨5, 5, 5⟩).containsPoint ⟨0, 0, 0⟩ = false := by
  with_unfolding_all decide

/-- C3: the claim says every triangle vertex referenced by a node lies inside
that node's AABB. On the single-triangle input `[triT]` the constructed tree
is one leaf referencing triangle 0 over the range `[0,1)`, yet the buggy
`grow` leaves the node bounds as the point box at the last-grown vertex
`v2 = (4,0,10)`, which does not contain the referenced vertex
`v0 = (0,0,10)`. -/
theorem claim_C3_containment_fails_on_leaf :
    (Bvh.construct [triT]).nodes.length = 1 ∧
    ((Bvh.construct [triT]).nodes.getD 0 dummyNode).count = 1 ∧
    ((Bvh.construct [triT]).nodes.getD 0 dummyNode).left_first = 0 ∧
    (Bvh.construct [triT]).indices = [0] ∧
    ((Bvh.construct [triT]).nodes.getD 0 dummyNode).bounds.containsPoint
      triT.v0.position = false := by
  with_unfolding_all decide

/-- C1: the claim says `Bvh::intersects` agrees with the brute-force scan
over all triangles. On the single-triangle input `[triT]` the brute-force
scan (and `Triangle::intersects` itself) reports a hit at distance 1, but the
constructed BVH's root bounds are the degenerate point box at `(4,0,10)`
(consequence of the `grow` bug), the slab test against `rayT` fails, the
whole tree is pruned, and `Bvh::intersects` returns `None`. -/
theorem claim_C1_bvh_disagrees_with_brute_force :
    bruteForceHit [triT] rayT = some 1 ∧
    Triangle.intersects triT rayT = some hitT ∧
    (Bvh.construct [triT]).intersects rayT = none := by
  with_unfolding_all decide

/-- C4: the claim says that after a degenerate-split abort both `count` and
`left_first` of the node hold their pre-split values, the leaf still
referencing `[start_index, start_index + count)`. On three triangles with a
common centroid the partition puts everything on the left, the abort path
runs, and the source restores `count = 3` but leaves `left_first = 1` (the
node-array length at split time, where the never-created first child would
have gone) instead of the original `left_first = 0`; the leaf now references
`[1, 4)` in an index array of length 3. -/
theorem claim_C4_abort_leaves_left_first_clobbered :
    (Bvh.construct [triT, triT, triT]).nodes.length = 1 ∧
    ((Bvh.construct [triT, triT, triT]).nodes.getD 0 dummyNode).count = 3 ∧
    ((Bvh.construct [triT, triT, triT]).nodes.getD 0 dummyNode).left_first = 1 ∧
    (Bvh.construct [triT, triT, triT]).indices = [0, 1, 2] := by
  with_unfolding_all decide

/-- IEEE `<=` is reflexive on every non-NaN extended value. -/
theorem F.le_refl_of_ne_nan (x : F) (h : x ≠ F.nan) : F.le x x = true := by
  cases x with
  | nan => exact absurd rfl h
  | pinf => rfl
  | ninf => rfl
  | fin a => simp [F.le]

/-- Comparing `0 <= x` succeeding means `x` is not NaN. -/
theorem F.ne_nan_of_le_fin_zero (x : F) (h : F.le (F.fin 0) x = true) : x ≠ F.nan := by
  intro hx
  rw [hx] at h
  exact absurd h (by simp [F.le])

/-- C6: `AABB::intersects` returns true exactly when the slab interval
`[tmin, tmax]` computed from the ray's precomputed reciprocal direction is
non-empty (`tmax >= tmin`, IEEE comparison) and `tmax >= 0`; in particular a
ray exactly tangent to a box face (`tmax == tmin` with `tmax >= 0`) is
classified as a hit. -/
theorem claim_C6_slab_interval_iff (box : AABB) (ray : Ray) :
    (AABB.intersects box ray = true ↔
      F.le (box.slab ray).1 (box.slab ray).2 = true ∧
      F.le (F.fin 0) (box.slab ray).2 = true) ∧
    ((box.slab ray).1 = (box.slab ray).2 →
      F.le (F.fin 0) (box.slab ray).2 = true → AABB.intersects box ray = true) := by
  constructor
  · simp [AABB.intersects, Bool.and_eq_true]
  · intro he h0
    have hnn : (box.slab ray).2 ≠ F.nan := F.ne_nan_of_le_fin_zero _ h0
    have hle : F.le (box.slab ray).1 (box.slab ray).2 = true := by
      rw [he]
      exact F.le_refl_of_ne_nan _ hnn
    simp [AABB.intersects, Bool.and_eq_true]
    exact ⟨hle, h0⟩

/-- C6 witness: the tangent ray `rayTan` against the unit box has
`tmin = tmax = 2` and is classified as a hit. -/
theorem claim_C6_slab_interval_iff_witness :
    (boxB.slab rayTan).1 = (boxB.slab rayTan).2 ∧
    F.le (F.fin 0) (boxB.slab rayTan).2 = true ∧
    AABB.intersects boxB rayTan = true :=
  ⟨by with_unfolding_all decide, by with_unfolding_all decide,
   (claim_C6_slab_interval_iff boxB rayTan).2 (by with_unfolding_all decide)
     (by with_unfolding_all decide)⟩

/-- C9: whenever the discriminant `d = b² - c` is non-negative (which the
hypothesis `s² = b² - c` on the exact square root forces), `Sphere::intersects`
reports the near root `-b - √d` when it is non-negative and falls back to the
far root `-b + √d` exactly otherwise; for a ray origin strictly inside the
sphere (`c < 0`) the reported distance is the far root and is never
negative. -/
theorem claim_C9_sphere_nearest_root (sp : Sphere) (ray : Ray) (s : ℚ)
    (hs : 0 ≤ s) (hsq : s * s = sp.bval ray * sp.bval ray - sp.cval ray) :
    ((Sphere.intersects sp ray s).map (fun h => h.distance) =
      some (if 0 ≤ -sp.bval ray - s then -sp.bval ray - s else -sp.bval ray + s)) ∧
    (sp.cval ray < 0 →
      (Sphere.intersects sp ray s).map (fun h => h.distance) =
        some (-sp.bval ray + s) ∧ 0 ≤ -sp.bval ray + s) := by
  simp only [Sphere.intersects, Sphere.bval, Sphere.cval] at *
  set b := Vec3.dot (ray.position.sub sp.position) ray.direction with hb
  set c := Vec3.dot (ray.position.sub sp.position) (ray.position.sub sp.position) -
    sp.radius_squared with hc
  have hd : b * b - c ≥ 0 := by nlinarith [mul_self_nonneg s]
  rw [if_pos hd]
  constructor
  · by_cases h1 : -b - s ≥ 0
    · rw [if_pos h1, if_pos (by exact h1)]
      rfl
    · rw [if_neg h1, if_neg (by exact h1)]
      rfl
  · intro hcneg
    have h1 : ¬(-b - s ≥ 0) := by nlinarith
    rw [if_neg h1]
    exact ⟨rfl, by nlinarith⟩

/-- C9 witness: the ray `rayS` starting at `(0,0,3)` strictly inside the
radius-5 sphere `sphS` (`b = 3`, `c = -16`, `√d = 5`) reports the far
intersection at distance 2, a non-negative distance. -/
theorem claim_C9_sphere_nearest_root_witness :
    (0:ℚ) ≤ 5 ∧
    (5:ℚ) * 5 = sphS.bval rayS * sphS.bval rayS - sphS.cval rayS ∧
    sphS.cval rayS < 0 ∧
    (Sphere.intersects sphS rayS 5).map (fun h => h.distance) = some 2 ∧
    (0:ℚ) ≤ 2 := by
  have h := (claim_C9_sphere_nearest_root sphS rayS 5 (by norm_num)
    (by with_unfolding_all decide)).2 (by with_unfolding_all decide)
  have he : -sphS.bval rayS + 5 = 2 := by with_unfolding_all decide
  rw [he] at h
  exact ⟨by norm_num, by with_unfolding_all decide, by with_unfolding_all decide,
    h.1, by norm_num⟩

/-- C10: constructing from the empty triangle list yields exactly one node
(the root) with `count = 0`, `left_first = 0`, and bounds still at the
inverted-infinity empty-box sentinel; querying that BVH returns `None` for
every ray (whatever the root slab test yields, the leaf range `[0, 0)` is
empty, so the accumulator is never written). -/
theorem claim_C10_empty_construct :
    Bvh.construct [] = ⟨[⟨AABB.new, 0, 0⟩], [], []⟩ ∧
    AABB.new = ⟨⟨F.pinf, F.pinf, F.pinf⟩, ⟨F.ninf, F.ninf, F.ninf⟩⟩ ∧
    ∀ ray : Ray, (Bvh.construct []).intersects ray = none := by
  have hc : Bvh.construct [] = ⟨[⟨AABB.new, 0, 0⟩], [], []⟩ := by
    with_unfolding_all rfl
  refine ⟨hc, rfl, ?_⟩
  intro ray
  rw [hc]
  have hsub : Bvh.intersectsSub ⟨[⟨AABB.new, 0, 0⟩], [], []⟩ 1 ray 0 none = none := by
    by_cases hbox : AABB.intersects AABB.new ray = true
    · simp [Bvh.intersectsSub, Bvh.leafLoop, idxRange, hbox]
    · simp [Bvh.intersectsSub, hbox]
  simp [Bvh.intersects, hsub]

/-- C7: `Triangle::intersects` returns `None` when the determinant is exactly
zero (the source rejects every `det <= 0`); the result is independent of the
ray's `length` field (no length cutoff is applied); and every reported hit
satisfies `t > 0`, `0 <= u <= 1`, `v >= 0`, `u + v <= 1`, with the normal
being the face normal `edge1 × edge2` (which the source scales to unit length
by the positive factor `1/|edge1 × edge2|`, not representable exactly). -/
theorem claim_C7_triangle_moller_trumbore (tri : Triangle) (ray : Ray) :
    (Triangle.det tri ray = 0 → Triangle.intersects tri ray = none) ∧
    (∀ len : F, Triangle.intersects tri { ray with length := len } =
      Triangle.intersects tri ray) ∧
    (∀ h : HitInfo, Triangle.intersects tri ray = some h →
      0 < h.distance ∧ 0 ≤ h.uv.x ∧ h.uv.x ≤ 1 ∧ 0 ≤ h.uv.y ∧
      h.uv.x + h.uv.y ≤ 1 ∧
      h.normal = Vec3.cross (tri.v1.position.sub tri.v0.position)
        (tri.v2.position.sub tri.v0.position)) := by
  refine ⟨?_, fun len => rfl, ?_⟩
  · intro hdet
    simp only [Triangle.det] at hdet
    simp only [Triangle.intersects]
    rw [if_pos (le_of_eq hdet)]
  · intro h hsome
    simp only [Triangle.intersects] at hsome
    split_ifs at hsome with h1 h2 h3 h4
    rw [Option.some_inj] at hsome
    subst hsome
    push_neg at h3
    exact ⟨h4, h2.1, h2.2, h3.1, h3.2, rfl⟩

/-- C7 witness: the degenerate collinear triangle `triDeg` has determinant 0
against `rayT` and reports no hit; `triT` reports against `rayT` the hit
`hitT` with distance 1 > 0, barycentric `(1/4, 1/4)` inside the triangle,
and face normal `(0,0,-16) = edge1 × edge2`. -/
theorem claim_C7_triangle_moller_trumbore_witness :
    Triangle.det triDeg rayT = 0 ∧
    Triangle.intersects triDeg rayT = none ∧
    Triangle.intersects triT rayT = some hitT ∧
    (0 < hitT.distance ∧ 0 ≤ hitT.uv.x ∧ hitT.uv.x ≤ 1 ∧ 0 ≤ hitT.uv.y ∧
      hitT.uv.x + hitT.uv.y ≤ 1 ∧
      hitT.normal = Vec3.cross (triT.v1.position.sub triT.v0.position)
        (triT.v2.position.sub triT.v0.position)) :=
  ⟨by with_unfolding_all decide,
   (claim_C7_triangle_moller_trumbore triDeg rayT).1 (by with_unfolding_all decide),
   by with_unfolding_all decide,
   (claim_C7_triangle_moller_trumbore triT rayT).2.2 hitT (by with_unfolding_all decide)⟩

/-- When the leaf guard (`count <= 2` or `rec_depth > 30`) holds, one call of
the subdivide body only recomputes the node's bounds and stops. -/
theorem Bvh.subdivideBody_guard (self : Bvh) (node_index rec_depth : ℕ)
    (h : (self.nodes.getD node_index dummyNode).count ≤ 2 ∨ 30 < rec_depth) :
    self.subdivideBody node_index rec_depth = Sum.inl (self.updateBounds node_index) := by
  dsimp only [Bvh.subdivideBody]
  rw [if_pos h]
  rfl

/-- A split (recursive) outcome of the body implies the depth guard passed,
i.e. `rec_depth ≤ 30`. -/
theorem Bvh.subdivideBody_inr (self : Bvh) (node_index rec_depth : ℕ)
    (x : Bvh × ℕ) (h : self.subdivideBody node_index rec_depth = Sum.inr x) :
    rec_depth ≤ 30 := by
  by_contra hd
  rw [Bvh.subdivideBody_guard self node_index rec_depth (Or.inr (by omega))] at h
  cases h

/-- C8: `subdivide` leaves a node as a leaf — recomputing only its bounds,
with no recursion (one call frame of fuel suffices) — whenever `count <= 2`
or `rec_depth > 30`; consequently, from any state and any starting depth,
`31 - rec_depth < fuel` call frames are never exhausted, so construction
(which starts at depth 0 with fuel 32) recurses at most to depth 31. -/
theorem claim_C8_subdivide_depth_bounded (self : Bvh) (node_index rec_depth : ℕ) :
    ((self.nodes.getD node_index dummyNode).count ≤ 2 ∨ 30 < rec_depth →
      ∀ fuel : ℕ, self.subdivideO (fuel + 1) node_index rec_depth =
        some (self.updateBounds node_index)) ∧
    (∀ fuel : ℕ, 31 - rec_depth < fuel →
      (self.subdivideO fuel node_index rec_depth).isSome = true) := by
  have key : ∀ (fuel : ℕ) (b : Bvh) (n d : ℕ), 31 - d < fuel →
      (b.subdivideO fuel n d).isSome = true := by
    intro fuel
    induction fuel with
    | zero => intro b n d hd; omega
    | succ fuel ih =>
      intro b n d hd
      cases hb : b.subdivideBody n d with
      | inl s => simp [Bvh.subdivideO, hb]
      | inr x =>
        have hd30 : d ≤ 30 := Bvh.subdivideBody_inr _ _ _ _ hb
        have h1 := ih x.1 x.2 (d + 1) (by omega)
        obtain ⟨s5, hs5⟩ := Option.isSome_iff_exists.mp h1
        have h2 := ih s5 (x.2 + 1) (d + 1) (by omega)
        simp only [Bvh.subdivideO, hb, hs5]
        exact h2
  constructor
  · intro hg fuel
    simp [Bvh.subdivideO, Bvh.subdivideBody_guard self node_index rec_depth hg]
  · intro fuel hf
    exact key fuel self node_index rec_depth hf

/-- C8 witness: the one-triangle leaf state satisfies the `count <= 2` guard,
a single call frame finishes it with only its bounds recomputed, and the
construction fuel 32 is not exhausted. -/
theorem claim_C8_subdivide_depth_bounded_witness :
    ((bvhLeaf.nodes.getD 0 dummyNode).count ≤ 2 ∨ 30 < 0) ∧
    bvhLeaf.subdivideO 1 0 0 = some (bvhLeaf.updateBounds 0) ∧
    31 - 0 < 32 ∧
    (bvhLeaf.subdivideO 32 0 0).isSome = true :=
  ⟨Or.inl (by with_unfolding_all decide),
   (claim_C8_subdivide_depth_bounded bvhLeaf 0 0).1
     (Or.inl (by with_unfolding_all decide)) 0,
   by norm_num,
   (claim_C8_subdivide_depth_bounded bvhLeaf 0 0).2 32 (by norm_num)⟩

/-- `getD` after `set` at the same in-bounds position reads the new value. -/
theorem getD_set_self (l : List ℕ) (i : ℕ) (a : ℕ) (h : i < l.length) :
    (l.set i a).getD i 0 = a := by
  simp [List.getD, List.getElem?_set_self, h]

/-- `getD` after `set` at a different position is unchanged. -/
theorem getD_set_ne (l : List ℕ) (i j : ℕ) (a : ℕ) (h : i ≠ j) :
    (l.set i a).getD j 0 = l.getD j 0 := by
  simp [List.getD, List.getElem?_set_ne h]

/-- Moving the `j`-th element of a list to the front while planting `x` in
its place is a permutation of planting `x` at the front. -/
theorem getD_cons_set_perm (xs : List ℕ) (j : ℕ) (x : ℕ) (h : j < xs.length) :
    List.Perm (xs.getD j 0 :: xs.set j x) (x :: xs) := by
  induction xs generalizing j with
  | nil => simp at h
  | cons y ys ih =>
    cases j with
    | zero => simpa using List.Perm.swap x y ys
    | succ j =>
      have hj : j < ys.length := by simpa using h
      have h1 : List.Perm (ys.getD j 0 :: y :: ys.set j x)
          (y :: ys.getD j 0 :: ys.set j x) := List.Perm.swap _ _ _
      have h2 : List.Perm (y :: ys.getD j 0 :: ys.set j x) (y :: x :: ys) :=
        (ih j hj).cons y
      have h3 : List.Perm (y :: x :: ys) (x :: y :: ys) := List.Perm.swap _ _ _
      simpa using (h1.trans h2).trans h3

/-- The double `set` that swaps two in-bounds positions is a permutation. -/
theorem set_set_swap_perm : ∀ (l : List ℕ) (i j : ℕ), i < l.length → j < l.length →
    List.Perm ((l.set i (l.getD j 0)).set j (l.getD i 0)) l := by
  intro l
  induction l with
  | nil => intro i j hi _; simp at hi
  | cons x xs ih =>
    intro i j hi hj
    match i, j with
    | 0, 0 => simp
    | 0, j + 1 => simpa using getD_cons_set_perm xs j x (by simpa using hj)
    | i + 1, 0 => simpa using getD_cons_set_perm xs i x (by simpa using hi)
    | i + 1, j + 1 =>
      simpa using (ih i j (by simpa using hi) (by simpa using hj)).cons x

/-- The index-array swap of `Bvh::partition` is a permutation. -/
theorem idxSwap_perm (idx : List ℕ) (i j : ℤ) (hi : i.toNat < idx.length)
    (hj : j.toNat < idx.length) : List.Perm (idxSwap idx i j) idx := by
  simpa [idxSwap, geti] using set_set_swap_perm idx i.toNat j.toNat hi hj

/-- The swap preserves the array length. -/
theorem idxSwap_length (idx : List ℕ) (i j : ℤ) :
    (idxSwap idx i j).length = idx.length := by
  simp [idxSwap]

/-- After the swap, position `j` holds the old entry of position `i`. -/
theorem geti_idxSwap_j (idx : List ℕ) (i j : ℤ) (hj : j.toNat < idx.length) :
    geti (idxSwap idx i j) j = geti idx i := by
  simp only [idxSwap, geti]
  exact getD_set_self _ _ _ (by simpa using hj)

/-- Positions other than `i` and `j` are untouched by the swap. -/
theorem geti_idxSwap_ne (idx : List ℕ) (i j k : ℤ)
    (h0 : 0 ≤ k) (hi : 0 ≤ i) (hj : 0 ≤ j) (hki : k ≠ i) (hkj : k ≠ j) :
    geti (idxSwap idx i j) k = geti idx k := by
  have h1 : j.toNat ≠ k.toNat := by omega
  have h2 : i.toNat ≠ k.toNat := by omega
  simp only [idxSwap, geti]
  rw [getD_set_ne _ _ _ _ h1, getD_set_ne _ _ _ _ h2]

/-- Invariant of the two-pointer partition loop: given enough fuel and the
running invariants (prefix `[st, i)` at most the pivot, suffix `(j, endd)`
above it), the loop returns a permutation of the index array that differs
only on `[i, j]`, together with a final pointer `i'` in `[st, endd]` such
that every entry of `[st, i')` scores at most the pivot and every entry of
`[i', endd)` scores above it. -/
theorem partLoopF_spec (C : ℕ → ℚ) (pivot : ℚ) (st endd : ℤ) :
    ∀ (fuel : ℕ) (idx : List ℕ) (i j : ℤ),
      (j + 1 - i).toNat ≤ fuel →
      0 ≤ st → st ≤ i → i ≤ j + 1 → j < endd → endd ≤ (idx.length : ℤ) →
      (∀ k : ℤ, st ≤ k → k < i → C (geti idx k) ≤ pivot) →
      (∀ k : ℤ, j < k → k < endd → pivot < C (geti idx k)) →
      List.Perm (partLoopF C pivot fuel idx i j).1 idx ∧
      st ≤ (partLoopF C pivot fuel idx i j).2 ∧
      (partLoopF C pivot fuel idx i j).2 ≤ endd ∧
      (∀ k : ℤ, 0 ≤ k → (k < i ∨ j < k) →
        geti (partLoopF C pivot fuel idx i j).1 k = geti idx k) ∧
      (∀ k : ℤ, st ≤ k → k < (partLoopF C pivot fuel idx i j).2 →
        C (geti (partLoopF C pivot fuel idx i j).1 k) ≤ pivot) ∧
      (∀ k : ℤ, (partLoopF C pivot fuel idx i j).2 ≤ k → k < endd →
        pivot < C (geti (partLoopF C pivot fuel idx i j).1 k)) := by
  intro fuel
  induction fuel with
  | zero =>
    intro idx i j hfuel h0 hsti hij hjend hlen hleft hright
    have heq1 : (partLoopF C pivot 0 idx i j).1 = idx := rfl
    have heq2 : (partLoopF C pivot 0 idx i j).2 = i := rfl
    rw [heq1, heq2]
    exact ⟨List.Perm.refl _, by omega, by omega, fun k _ _ => rfl,
      fun k hk1 hk2 => hleft k hk1 hk2,
      fun k hk1 hk2 => hright k (by omega) hk2⟩
  | succ fuel ih =>
    intro idx i j hfuel h0 hsti hij hjend hlen hleft hright
    by_cases hij2 : i ≤ j
    · have hilen : i.toNat < idx.length := by omega
      have hjlen : j.toNat < idx.length := by omega
      by_cases hc : pivot < C (geti idx i)
      · have heq : partLoopF C pivot (fuel + 1) idx i j =
            partLoopF C pivot fuel (idxSwap idx i j) i (j - 1) := by
          simp [partLoopF, hij2, hc]
        have hswlen : (idxSwap idx i j).length = idx.length := idxSwap_length idx i j
        have hleft2 : ∀ k : ℤ, st ≤ k → k < i →
            C (geti (idxSwap idx i j) k) ≤ pivot := by
          intro k hk1 hk2
          rw [geti_idxSwap_ne idx i j k (by omega) (by omega) (by omega) (by omega)
            (by omega)]
          exact hleft k hk1 hk2
        have hright2 : ∀ k : ℤ, j - 1 < k → k < endd →
            pivot < C (geti (idxSwap idx i j) k) := by
          intro k hk1 hk2
          by_cases hkj : k = j
          · rw [hkj, geti_idxSwap_j idx i j hjlen]
            exact hc
          · rw [geti_idxSwap_ne idx i j k (by omega) (by omega) (by omega) (by omega) hkj]
            exact hright k (by omega) hk2
        have hrec := ih (idxSwap idx i j) i (j - 1) (by omega) h0 hsti (by omega)
          (by omega) (by rw [hswlen]; omega) hleft2 hright2
        rw [heq]
        refine ⟨hrec.1.trans (idxSwap_perm idx i j hilen hjlen), hrec.2.1, hrec.2.2.1,
          ?_, hrec.2.2.2.2.1, hrec.2.2.2.2.2⟩
        intro k hk0 hk
        rw [hrec.2.2.2.1 k hk0 (by omega)]
        exact geti_idxSwap_ne idx i j k hk0 (by omega) (by omega) (by omega) (by omega)
      · have heq : partLoopF C pivot (fuel + 1) idx i j =
            partLoopF C pivot fuel idx (i + 1) j := by
          simp [partLoopF, hij2, hc]
        have hleft2 : ∀ k : ℤ, st ≤ k → k < i + 1 → C (geti idx k) ≤ pivot := by
          intro k hk1 hk2
          by_cases hki : k = i
          · rw [hki]
            exact le_of_not_lt hc
          · exact hleft k hk1 (by omega)
        have hrec := ih idx (i + 1) j (by omega) h0 (by omega) (by omega) hjend hlen
          hleft2 hright
        rw [heq]
        refine ⟨hrec.1, hrec.2.1, hrec.2.2.1, ?_, hrec.2.2.2.2.1, hrec.2.2.2.2.2⟩
        intro k hk0 hk
        exact hrec.2.2.2.1 k hk0 (by omega)
    · have heq1 : (partLoopF C pivot (fuel + 1) idx i j).1 = idx := by
        simp [partLoopF, hij2]
      have heq2 : (partLoopF C pivot (fuel + 1) idx i j).2 = i := by
        simp [partLoopF, hij2]
      rw [heq1, heq2]
      exact ⟨List.Perm.refl _, by omega, by omega, fun k _ _ => rfl,
        fun k hk1 hk2 => hleft k hk1 hk2,
        fun k hk1 hk2 => hright k (by omega) hk2⟩

/-- C5: for an in-bounds call, `Bvh::partition(axis, pivot, start, count)`
only permutes the index array, touching nothing outside `[start, start+count)`
(and neither the node nor the triangle storage); the returned split position
`i` lies in `[start, start+count]`; every entry of `[start, i)` refers to a
triangle whose centroid coordinate on the chosen axis is at most the pivot
and every entry of `[i, start+count)` to one whose coordinate exceeds it;
consequently the two child ranges `[start, i)` and `[i, start+count)` of a
split node partition the parent range exactly, with no overlap and no
omission. -/
theorem claim_C5_partition (bvh : Bvh) (axis : Axis) (pivot : ℚ) (start count : ℕ)
    (hbound : start + count ≤ bvh.indices.length) :
    List.Perm (bvh.partition axis pivot start count).1.indices bvh.indices ∧
    (bvh.partition axis pivot start count).1.nodes = bvh.nodes ∧
    (bvh.partition axis pivot start count).1.triangles = bvh.triangles ∧
    (start : ℤ) ≤ (bvh.partition axis pivot start count).2 ∧
    (bvh.partition axis pivot start count).2 ≤ (start : ℤ) + count ∧
    (∀ k : ℤ, 0 ≤ k → (k < (start : ℤ) ∨ (start : ℤ) + count ≤ k) →
      geti (bvh.partition axis pivot start count).1.indices k = geti bvh.indices k) ∧
    (∀ k : ℤ, (start : ℤ) ≤ k → k < (bvh.partition axis pivot start count).2 →
      (bvh.triangles.getD (geti (bvh.partition axis pivot start count).1.indices k)
        dummyTriangle).center axis ≤ pivot) ∧
    (∀ k : ℤ, (bvh.partition axis pivot start count).2 ≤ k →
      k < (start : ℤ) + count →
      pivot < (bvh.triangles.getD (geti (bvh.partition axis pivot start count).1.indices k)
        dummyTriangle).center axis) ∧
    Set.Ico ((start : ℤ)) (bvh.partition axis pivot start count).2 ∪
      Set.Ico (bvh.partition axis pivot start count).2 ((start : ℤ) + count) =
      Set.Ico ((start : ℤ)) ((start : ℤ) + count) ∧
    Disjoint (Set.Ico ((start : ℤ)) (bvh.partition axis pivot start count).2)
      (Set.Ico (bvh.partition axis pivot start count).2 ((start : ℤ) + count)) := by
  have h := partLoopF_spec (fun n => (bvh.triangles.getD n dummyTriangle).center axis)
    pivot (start : ℤ) ((start : ℤ) + count)
    (((start : ℤ) + count - 1) + 1 - start).toNat bvh.indices (start : ℤ)
    ((start : ℤ) + count - 1) (le_refl _) (by omega) (by omega) (by omega) (by omega)
    (by omega) (fun k hk1 hk2 => absurd hk2 (by omega))
    (fun k hk1 hk2 => absurd hk2 (by omega))
  simp only [Bvh.partition, partLoop]
  refine ⟨h.1, trivial, trivial, h.2.1, h.2.2.1, ?_, h.2.2.2.2.1, h.2.2.2.2.2, ?_, ?_⟩
  · intro k hk0 hk
    exact h.2.2.2.1 k hk0 (by omega)
  · exact Set.Ico_union_Ico_eq_Ico h.2.1 h.2.2.1
  · exact Set.Ico_disjoint_Ico_same

/-- C5 witness: on the identity permutation over the three triangles of
`trisPart` (centroid x-coordinates 0, 10, 4), partitioning `[0, 3)` at pivot
5 on the x-axis permutes the index array and returns a split with the
claimed ordering properties. -/
theorem claim_C5_partition_witness :
    0 + 3 ≤ bvhPart.indices.length ∧
    List.Perm (bvhPart.partition Axis.X 5 0 3).1.indices bvhPart.indices ∧
    ((0 : ℕ) : ℤ) ≤ (bvhPart.partition Axis.X 5 0 3).2 ∧
    (bvhPart.partition Axis.X 5 0 3).2 ≤ ((0 : ℕ) : ℤ) + (3 : ℕ) :=
  ⟨by decide,
   (claim_C5_partition bvhPart Axis.X 5 0 3 (by decide)).1,
   (claim_C5_partition bvhPart Axis.X 5 0 3 (by decide)).2.2.2.1,
   (claim_C5_partition bvhPart Axis.X 5 0 3 (by decide)).2.2.2.2.1⟩

end RustRenderGL
